import Mathlib

/-!
Shallow embedding of the csv-chatbot application logic (src/src/App.tsx,
first document; the serverless / Supabase lookup variants appear further
down the same file and in src/unnamed/part_002).

Strings are modelled with Lean `String` (a list of characters); character
classes (`whitespace`, digits, letters) follow the ASCII semantics of the
JavaScript regexes used by the source (`\d`, `\D`, `\S`, `\w` are ASCII in
the source's regexes; `trim`/`toUpperCase`/`toLowerCase` agree with the
ASCII model on every character the program's tables and regexes inspect).
JavaScript numbers are modelled by exact decimal semantics (sign, integer
digits, fraction digits); this agrees with `String(Number(x))` for all
decimal inputs whose value is exactly representable in binary64 shortest
round-trip form, which covers the money amounts this program handles.
-/

namespace CsvChatbot

/-! ### String utilities (JS `trim`, `toLowerCase`, `toUpperCase`) -/

/-- Leading-whitespace removal, JS `String.prototype.trim` left half. -/
def trimLeading (l : List Char) : List Char := l.dropWhile Char.isWhitespace

/-- Trailing-whitespace removal, JS `String.prototype.trim` right half. -/
def trimTrailing (l : List Char) : List Char :=
  (l.reverse.dropWhile Char.isWhitespace).reverse

/-- JS `s.trim()`. -/
def jtrim (s : String) : String := ⟨trimTrailing (trimLeading s.data)⟩

/-- JS `s.toLowerCase()` (ASCII model). -/
def lowerStr (s : String) : String := ⟨s.data.map Char.toLower⟩

/-- JS `s.toUpperCase()` (ASCII model). -/
def upperStr (s : String) : String := ⟨s.data.map Char.toUpper⟩

/-- App.tsx `normalize`: `(v ?? "").toString().trim().toLowerCase()`. -/
def normalize (v : String) : String := lowerStr (jtrim v)

/-- Lookup in a JS object literal used as a map (first binding wins;
the tables in the source bind every key once). -/
def lookupTable (t : List (String × String)) (k : String) : Option String :=
  (t.find? (fun p => p.1 == k)).map (fun p => p.2)

/-! ### State abbreviation table (App.tsx `stateFromInput`, lines 70-86) -/

def stateTable : List (String × String) :=
  [("AL", "Alabama"), ("AK", "Alaska"), ("AZ", "Arizona"), ("AR", "Arkansas"),
   ("CA", "California"), ("CO", "Colorado"), ("CT", "Connecticut"),
   ("DE", "Delaware"), ("FL", "Florida"), ("GA", "Georgia"), ("HI", "Hawaii"),
   ("ID", "Idaho"), ("IL", "Illinois"), ("IN", "Indiana"), ("IA", "Iowa"),
   ("KS", "Kansas"), ("KY", "Kentucky"), ("LA", "Louisiana"), ("ME", "Maine"),
   ("MD", "Maryland"), ("MA", "Massachusetts"), ("MI", "Michigan"),
   ("MN", "Minnesota"), ("MS", "Mississippi"), ("MO", "Missouri"),
   ("MT", "Montana"), ("NE", "Nebraska"), ("NV", "Nevada"),
   ("NH", "New Hampshire"), ("NJ", "New Jersey"), ("NM", "New Mexico"),
   ("NY", "New York"), ("NC", "North Carolina"), ("ND", "North Dakota"),
   ("OH", "Ohio"), ("OK", "Oklahoma"), ("OR", "Oregon"), ("PA", "Pennsylvania"),
   ("RI", "Rhode Island"), ("SC", "South Carolina"), ("SD", "South Dakota"),
   ("TN", "Tennessee"), ("TX", "Texas"), ("UT", "Utah"), ("VT", "Vermont"),
   ("VA", "Virginia"), ("WA", "Washington"), ("WV", "West Virginia"),
   ("WI", "Wisconsin"), ("WY", "Wyoming")]

/-- App.tsx `stateFromInput`: `states[input.trim().toUpperCase()] || input.trim()`
(the table's values are all non-empty, so `||` is exactly the `none` case). -/
def stateFromInput (input : String) : String :=
  let key := upperStr (jtrim input)
  match lookupTable stateTable key with
  | some full => full
  | none => jtrim input

/-! ### JS numeric interpretation of the q3 (bond limit) answer:
`String(Number(String(raw).replace(/[^0-9.-]/g, "")) || raw)` -/

/-- Characters kept by `replace(/[^0-9.-]/g, "")`. -/
def numKeep (c : Char) : Bool := c.isDigit || c == '.' || c == '-'

/-- The result of stripping non-numeric characters from a string. -/
def stripNonNum (s : String) : List Char := s.data.filter numKeep

/-- Exact decimal value: sign, integer-part digits, fraction-part digits. -/
structure JsNum where
  neg : Bool
  ip : List Char
  fp : List Char
deriving DecidableEq, Repr

/-- Split a dot-and-digit body into integer and fraction digit lists;
`none` when the body is not of the form `D* ('.' D*)?`. -/
def parseDigitsDot (cs : List Char) : Option (List Char × List Char) :=
  let ip := cs.takeWhile Char.isDigit
  match cs.dropWhile Char.isDigit with
  | [] => some (ip, [])
  | '.' :: t => if t.all Char.isDigit then some (ip, t) else none
  | _ => none

/-- JS `Number` on a string containing only `[0-9.-]` characters:
`""` is 0; an optional leading `-` then at least one digit around at most
one dot; anything else is NaN (`none`). -/
def parseNum (cs : List Char) : Option JsNum :=
  if cs = [] then some ⟨false, [], []⟩
  else
    let (sgn, body) := match cs with
      | '-' :: t => (true, t)
      | _ => (false, cs)
    match parseDigitsDot body with
    | none => none
    | some (ip, fp) => if ip = [] ∧ fp = [] then none else some ⟨sgn, ip, fp⟩

/-- The parsed value is zero (JS falsy, ignoring NaN which is `none`). -/
def isZeroNum (n : JsNum) : Bool := (n.ip ++ n.fp).all (· == '0')

/-- JS `String` of a finite nonzero number in plain decimal form. -/
def fmtNum (n : JsNum) : String :=
  let ic0 := n.ip.dropWhile (· == '0')
  let ic := if ic0 = [] then ['0'] else ic0
  let fc := (n.fp.reverse.dropWhile (· == '0')).reverse
  ⟨(if n.neg then ['-'] else []) ++ ic ++ (if fc = [] then [] else '.' :: fc)⟩

/-- The q3 branch of App.tsx `interpretAnswer`. -/
def interpretQ3 (raw : String) : String :=
  match parseNum (stripNonNum raw) with
  | some n => if isZeroNum n then raw else fmtNum n
  | none => raw

/-- App.tsx `interpretAnswer` (lines 92-97). -/
def interpretAnswer (qid : String) (raw : String) : String :=
  if qid == "q1" then stateFromInput raw
  else if qid == "q3" then interpretQ3 raw
  else raw

/-! ### The question config and the exact matcher -/

/-- One entry of App.tsx `QUESTION_CONFIG` (the fields the matcher reads). -/
structure QuestionCfg where
  id : String
  csvColumn : Option String
  mode : Option String
deriving DecidableEq, Repr

def QUESTION_CONFIG : List QuestionCfg :=
  [⟨"q1", some "state", some "equals"⟩,
   ⟨"q2", some "city", some "equals"⟩,
   ⟨"q3", some "bond_limit", some "equals"⟩,
   ⟨"q4", some "name", some "equals"⟩,
   ⟨"q5", none, none⟩]

/-- A parsed CSV row: JS `Record<string, string>` as an association list;
a missing key is JS `undefined`. -/
def Row := List (String × String)
deriving DecidableEq

/-- JS `row[col]`. -/
def rowGet (r : Row) (k : String) : Option String := lookupTable r k

/-- The collected answers: JS `Record<string, string>`. -/
def Answers := List (String × String)
deriving DecidableEq

/-- JS `answers[q.id] || ""` (an absent key and an empty value coincide). -/
def aget (ans : Answers) (k : String) : String := (lookupTable ans k).getD ""

/-- App.tsx `matches` (lines 100-113); `matches` is a Lean keyword, hence `matchesQ`. -/
def matchesQ (row : Row) (q : QuestionCfg) (answer : String) : Bool :=
  match q.csvColumn with
  | none => true
  | some col =>
    match rowGet row col with
    | none => false
    | some raw =>
      let a := normalize (interpretAnswer q.id answer)
      let rv := normalize raw
      rv == a

/-- App.tsx `strictMatch` (lines 116-119). -/
def strictMatch (rows : List Row) (answers : Answers) : List Row :=
  let qs := QUESTION_CONFIG.filter (fun q => q.csvColumn.isSome)
  rows.filter (fun row => qs.all (fun q => matchesQ row q (aget answers q.id)))

/-- App.tsx `const primary = exactMatches[0] || null` (lines 230-232). -/
def primaryOf (rows : List Row) (answers : Answers) : Option Row :=
  (strictMatch rows answers)[0]?

/-! ### Validation helpers (App.tsx lines 144-158) -/

/-- JS `String(s || "").replace(/\D+/g, "")`: the digit characters of `s`. -/
def digitsOf (s : String) : List Char := s.data.filter Char.isDigit

/-- App.tsx `normalizePhone` (lines 148-154).  The generic fallback tests
`/^\+\d{7,15}$/.test("+" + digits)`, i.e. 7 to 15 digits. -/
def normalizePhone (s : String) : String :=
  let ds := digitsOf s
  if ds.length = 11 ∧ ds.head? = some '1' then ⟨'+' :: ds⟩
  else if ds.length = 10 then ⟨'+' :: '1' :: ds⟩
  else if 7 ≤ ds.length ∧ ds.length ≤ 15 then ⟨'+' :: ds⟩
  else jtrim s

/-- The regex `/^\+\d{10,15}$/`: a leading plus then 10 to 15 digits. -/
def phoneRe (s : String) : Bool :=
  match s.data with
  | [] => false
  | c :: rest =>
    c == '+' && rest.all Char.isDigit &&
      decide (10 ≤ rest.length) && decide (rest.length ≤ 15)

/-- App.tsx `isValidPhone` (lines 155-158). -/
def isValidPhone (s : String) : Bool := phoneRe (normalizePhone s)

/-- The character class `[\w-]` of the email regex (ASCII). -/
def isWordDash (c : Char) : Bool := c.isAlphanum || c == '_' || c == '-'

/-- The regex `/^\S+@\S+\.[\w-]{2,}$/` as a decomposition search: some
position `p ≥ 1` holds `@`, some position `q ≥ p + 2` holds `.`, and the
tail after `q` is 2 or more word-or-dash characters; every character is
non-whitespace. -/
def emailCheck (cs : List Char) : Bool :=
  cs.all (fun c => !c.isWhitespace) &&
  (List.range cs.length).any (fun p =>
    decide (1 ≤ p) && (cs[p]? == some '@') &&
    (List.range cs.length).any (fun q =>
      decide (p + 2 ≤ q) && (cs[q]? == some '.') &&
      (decide (2 ≤ (cs.drop (q + 1)).length) &&
        (cs.drop (q + 1)).all isWordDash)))

/-- App.tsx `isValidEmail` (lines 145-147): the regex applied to `s.trim()`. -/
def isValidEmail (s : String) : Bool := emailCheck (jtrim s).data

/-! ### Dates (App.tsx `todayYMD`, `plusOneYearYMD`, `validateQ5`,
lines 243-269).  A calendar date is a year-month-day triple; `rd` is its
rata-die serial day number, which orders dates exactly as the JS `Date`
comparisons on `YYYY-MM-DD` strings do (both compare the UTC-midnight
instants of the dates). -/

structure Ymd where
  y : Nat
  m : Nat
  d : Nat
deriving DecidableEq, Repr

/-- Gregorian leap year. -/
def isLeap (y : Nat) : Bool := y % 4 == 0 && (y % 100 != 0 || y % 400 == 0)

def daysInMonth (y m : Nat) : Nat :=
  if m = 2 then (if isLeap y then 29 else 28)
  else if m = 4 ∨ m = 6 ∨ m = 9 ∨ m = 11 then 30
  else 31

def dayOfYear (t : Ymd) : Nat :=
  ((List.range (t.m - 1)).map (fun i => daysInMonth t.y (i + 1))).sum + t.d

/-- Serial day number of a date (monotone in calendar order). -/
def rd (t : Ymd) : Nat :=
  365 * (t.y - 1) + (t.y - 1) / 4 - (t.y - 1) / 100 + (t.y - 1) / 400 + dayOfYear t

/-- The triple denotes an actual calendar date. -/
def validYmd (t : Ymd) : Bool :=
  decide (1 ≤ t.y) && decide (1 ≤ t.m) && decide (t.m ≤ 12) &&
  decide (1 ≤ t.d) && decide (t.d ≤ daysInMonth t.y t.m)

/-- App.tsx `plusOneYearYMD` (lines 250-257): `d.setFullYear(d.getFullYear()+1)`
keeps month and day, except that Feb 29 rolls over to Mar 1 of the next year
when the next year is not a leap year. -/
def plusOneYearYMD (t : Ymd) : Ymd :=
  if t.m = 2 ∧ t.d = 29 ∧ isLeap (t.y + 1) = false then ⟨t.y + 1, 3, 1⟩
  else ⟨t.y + 1, t.m, t.d⟩

/-- App.tsx `validateQ5` (lines 261-269), after date parsing: the input is
`none` when `new Date(val)` is an invalid date, otherwise the parsed
year-month-day.  `min` is today and `max` is `plusOneYearYMD` of today. -/
def validateQ5 (today : Ymd) (val : Option Ymd) : String :=
  match val with
  | none => "Please choose a valid date."
  | some d =>
    if rd d < rd today then
      "Effective date cannot be in the past. Please select today or a future date."
    else if rd (plusOneYearYMD today) < rd d then
      "Effective date must be within the next year."
    else ""

/-- JS `new Date(val)` for the `YYYY-MM-DD` strings produced by the date
input: the parsed triple, or `none` for an invalid date. -/
def parseDate (s : String) : Option Ymd :=
  match s.data with
  | [y1, y2, y3, y4, '-', m1, m2, '-', d1, d2] =>
    if ([y1, y2, y3, y4, m1, m2, d1, d2].all Char.isDigit) then
      let t : Ymd :=
        ⟨((y1.toNat - 48) * 1000 + (y2.toNat - 48) * 100 + (y3.toNat - 48) * 10 + (y4.toNat - 48)),
         ((m1.toNat - 48) * 10 + (m2.toNat - 48)),
         ((d1.toNat - 48) * 10 + (d2.toNat - 48))⟩
      if validYmd t then some t else none
    else none
  | _ => none

/-! ### Remote lookup models (third App.tsx document, lines 1263-1277, and
src/unnamed/part_002 `findExactBond` / `findExactBondClient`).  Each
function performs exactly one request; its behaviour is a pure function of
that single response, with no retry. -/

/-- A bond record (`BondRow` in the source). -/
structure BondRec where
  state : String
  city : String
  bond_limit : Int
  name : String
  premium : Option String
deriving DecidableEq, Repr

/-- The outcome of the single `fetch("/api/query-bond", ...)` call:
an OK response whose JSON `match` field is `body`, or a non-OK response. -/
inductive FetchResult where
  | ok (body : Option BondRec)
  | httpError (status : Nat) (text : String)
deriving DecidableEq, Repr

/-- App.tsx `findExactBondViaApi` (lines 1263-1277) as a function of its
one response: a non-OK response yields `null`; an OK response yields
`json?.match ?? null`. -/
def findExactBondViaApi (res : FetchResult) : Option BondRec :=
  match res with
  | .httpError _ _ => none
  | .ok body => body

/-- The outcome of the single Supabase query in part_002. -/
inductive SupabaseResult where
  | rows (data : List BondRec)
  | queryError (msg : String)
deriving DecidableEq, Repr

/-- part_002 `findExactBond` (lines 179-202): on a query error, `null`;
otherwise `(data && data[0]) || null`. -/
def findExactBond (res : SupabaseResult) : Option BondRec :=
  match res with
  | .queryError _ => none
  | .rows data => data[0]?

/-- The outcome of the client-side query of part_002 `findExactBondClient`,
which may also throw. -/
inductive ClientOutcome where
  | result (r : SupabaseResult)
  | thrown (msg : String)
deriving DecidableEq, Repr

/-- part_002 `findExactBondClient` (lines 857-880): returns
`{ match, error? }`; every failure yields a `null` match plus a message. -/
def findExactBondClient (o : ClientOutcome) : Option BondRec × Option String :=
  match o with
  | .thrown _ => (none, some "client-exception")
  | .result (.queryError m) => (none, some m)
  | .result (.rows data) =>
    (if 0 < data.length then data[0]? else none, none)

/-- The three summary-phase screens of the remote-lookup variant. -/
inductive SummaryScreen where
  | searching
  | bondSummary
  | inquiry
deriving DecidableEq, Repr

/-- The summary phase renders the searching indicator while loading, the
bond summary when `primary` is non-null, and the inquiry block otherwise. -/
def summaryView (loadingMatch : Bool) (primary : Option BondRec) : SummaryScreen :=
  if loadingMatch then .searching
  else if primary.isSome then .bondSummary
  else .inquiry

/-! ### The wizard state machine (first App.tsx document, lines 207-584).
State fields mirror the React `useState` hooks; events mirror the handlers
wired to the rendered controls.  A handler fires only when its control is
rendered, so every event is guarded by the phase (and, for everything below
the upload header, by a loaded CSV).  `today` is the environment clock,
constant during a session. -/

inductive Phase where
  | qa | summary | purchase | consent | delivery | done
deriving DecidableEq, Repr

inductive DeliveryChoice where
  | viaText | viaEmail
deriving DecidableEq, Repr

/-- The purchase record (`Partial<ContactInfo>`); every read in the source
is `(purchase[id] || "")`, so a missing field and `""` coincide. -/
structure ContactInfo where
  companyName : String := ""
  contactName : String := ""
  companyAddress : String := ""
  contactPhone : String := ""
  contactEmail : String := ""
deriving DecidableEq, Repr

/-- The five purchase field ids. -/
inductive PFieldId where
  | companyName | contactName | companyAddress | contactPhone | contactEmail
deriving DecidableEq, Repr

/-- One entry of `PURCHASE_FIELDS` (the fields `nextPurchase` reads). -/
structure PurchaseFieldCfg where
  id : PFieldId
  prompt : String
deriving DecidableEq, Repr

def PURCHASE_FIELDS : List PurchaseFieldCfg :=
  [⟨.companyName, "Company Name"⟩,
   ⟨.contactName, "Contact Name"⟩,
   ⟨.companyAddress, "Company Address"⟩,
   ⟨.contactPhone, "Contact Cell Phone Number"⟩,
   ⟨.contactEmail, "Contact Email Address"⟩]

def getPF (c : ContactInfo) : PFieldId → String
  | .companyName => c.companyName
  | .contactName => c.contactName
  | .companyAddress => c.companyAddress
  | .contactPhone => c.contactPhone
  | .contactEmail => c.contactEmail

def setPF (c : ContactInfo) : PFieldId → String → ContactInfo
  | .companyName, v => { c with companyName := v }
  | .contactName, v => { c with contactName := v }
  | .companyAddress, v => { c with companyAddress := v }
  | .contactPhone, v => { c with contactPhone := v }
  | .contactEmail, v => { c with contactEmail := v }

/-- The whole component state. -/
structure AppState where
  csv : Option (List Row)
  phase : Phase
  step : Nat
  answers : Answers
  input : String
  qError : String
  purchase : ContactInfo
  pStep : Nat
  pError : String
  deliveryChoice : Option DeliveryChoice
  deliveryValue : String
  deliveryError : String
deriving DecidableEq

/-- The initial `useState` values. -/
def initState : AppState :=
  ⟨none, .qa, 0, [], "", "", {}, 0, "", none, "", ""⟩

/-- App.tsx `resetAll` (lines 236-240); it does not clear the CSV. -/
def resetAllSt (s : AppState) : AppState :=
  { s with phase := .qa, step := 0, answers := [], input := "", qError := "",
           purchase := {}, pStep := 0, pError := "",
           deliveryChoice := none, deliveryValue := "", deliveryError := "" }

/-- JS spread `{...prev, [id]: val}`; lookups read the newest binding. -/
def aset (ans : Answers) (k v : String) : Answers := (k, v) :: ans

/-- The events the rendered controls can raise. -/
inductive Event where
  | uploadCsv (rows : List Row)
  | typeQA (v : String)
  | submitQA
  | backQA
  | resetQA
  | summaryYes
  | summaryNo
  | summaryBack
  | editAnswer (i : Fin 4)
  | typePurchase (v : String)
  | nextPurchase
  | backPurchase
  | consentAgree
  | consentDisagree
  | consentBack
  | chooseDelivery (c : DeliveryChoice)
  | typeDelivery (v : String)
  | deliveryBackToChoice
  | deliveryBackToConsent
  | submitDelivery
  | restartDone
deriving DecidableEq

/-- The four summary Edit buttons: target step and prefilled answer key
(lines 438, 442, 446, 450). -/
def editTargets : Fin 4 → Nat × String
  | 0 => (3, "q4")
  | 1 => (1, "q2")
  | 2 => (2, "q3")
  | 3 => (4, "q5")

/-- The second half of `submitAnswer`: record the interpreted answer,
clear the input, advance the step or enter the summary phase. -/
def recordAnswer (s : AppState) (qid raw : String) : AppState :=
  let val := interpretAnswer qid raw
  let s := { s with answers := aset s.answers qid val, input := "" }
  if s.step + 1 < QUESTION_CONFIG.length then { s with step := s.step + 1 }
  else { s with phase := .summary }

/-- App.tsx `submitAnswer` (lines 271-287). -/
def submitAnswerFn (today : Ymd) (s : AppState) : AppState :=
  match QUESTION_CONFIG[s.step]? with
  | none => s
  | some q =>
    let raw := jtrim s.input
    if raw = "" then s
    else if q.id == "q5" then
      let err := validateQ5 today (parseDate raw)
      if err ≠ "" then { s with qError := err }
      else recordAnswer { s with qError := "" } q.id raw
    else recordAnswer s q.id raw

/-- App.tsx `goBackQA` (lines 289-296). -/
def goBackQAFn (s : AppState) : AppState :=
  if s.step = 0 then s
  else
    let prevId := ((QUESTION_CONFIG[s.step - 1]?).map (fun q => q.id)).getD ""
    { s with input := aget s.answers prevId, step := s.step - 1, qError := "" }

/-- App.tsx `nextPurchase` (lines 300-315). -/
def nextPurchaseFn (s : AppState) : AppState :=
  match PURCHASE_FIELDS[s.pStep]? with
  | none => s
  | some f =>
    let currentVal := jtrim (getPF s.purchase f.id)
    if currentVal = "" then { s with pError := f.prompt ++ " is required." }
    else if f.id = .contactEmail ∧ isValidEmail currentVal = false then
      { s with pError := "Please enter a valid email address." }
    else if f.id = .contactPhone ∧ isValidPhone currentVal = false then
      { s with pError := "Please enter a valid mobile phone number (SMS-capable)." }
    else
      let s1 := if f.id = .contactPhone then
          { s with purchase := setPF s.purchase f.id (normalizePhone currentVal) }
        else s
      if s.pStep + 1 < PURCHASE_FIELDS.length then
        { s1 with pError := "", pStep := s.pStep + 1 }
      else { s1 with pError := "", phase := .consent }

/-- App.tsx `backPurchase` (lines 316-320). -/
def backPurchaseFn (s : AppState) : AppState :=
  if s.pStep = 0 then { s with pError := "", phase := .summary }
  else { s with pError := "", pStep := s.pStep - 1 }

/-- App.tsx `chooseDelivery` (lines 325-330). -/
def chooseDeliveryFn (c : DeliveryChoice) (s : AppState) : AppState :=
  let prefill := match c with
    | .viaText => s.purchase.contactPhone
    | .viaEmail => s.purchase.contactEmail
  { s with deliveryChoice := some c, deliveryValue := prefill, deliveryError := "" }

/-- App.tsx `submitDelivery` (lines 332-347); `deliveryValue || fallback`
reads the purchase field when the text box is empty. -/
def submitDeliveryFn (s : AppState) : AppState :=
  match s.deliveryChoice with
  | none => s
  | some .viaText =>
    let v := if s.deliveryValue = "" then s.purchase.contactPhone else s.deliveryValue
    if isValidPhone v = false then
      { s with deliveryError := "Please enter a valid mobile phone number." }
    else { s with deliveryError := "", phase := .done }
  | some .viaEmail =>
    let v := if s.deliveryValue = "" then s.purchase.contactEmail else s.deliveryValue
    if isValidEmail v = false then
      { s with deliveryError := "Please enter a valid email address." }
    else { s with deliveryError := "", phase := .done }

/-- Whether the summary phase would show a primary record (`primary ?`). -/
def primaryShown (s : AppState) : Bool :=
  match s.csv with
  | some rows => (primaryOf rows s.answers).isSome
  | none => false

/-- The summary decision buttons render only when `primary` is non-null
(lines 432-466); the inquiry branch has no buttons. -/
def summaryButtonsShown (s : AppState) : Prop :=
  s.csv.isSome = true ∧ s.phase = .summary ∧ primaryShown s = true

instance (s : AppState) : Decidable (summaryButtonsShown s) := by
  unfold summaryButtonsShown; exact inferInstance

/-- One step of the UI: dispatch an event to its handler, guarded by what
is rendered in the current state. -/
def stepFn (today : Ymd) (s : AppState) (e : Event) : AppState :=
  match e with
  | .uploadCsv rows => resetAllSt { s with csv := some rows }
  | .typeQA v =>
    if s.csv.isSome = true ∧ s.phase = .qa then { s with input := v } else s
  | .submitQA =>
    if s.csv.isSome = true ∧ s.phase = .qa then submitAnswerFn today s else s
  | .backQA =>
    if s.csv.isSome = true ∧ s.phase = .qa then goBackQAFn s else s
  | .resetQA =>
    if s.csv.isSome = true ∧ s.phase = .qa then
      { s with step := 0, answers := [], input := "", qError := "" }
    else s
  | .summaryYes => if summaryButtonsShown s then { s with phase := .purchase } else s
  | .summaryNo => if summaryButtonsShown s then { s with phase := .qa } else s
  | .summaryBack => if summaryButtonsShown s then { s with phase := .qa } else s
  | .editAnswer i =>
    if summaryButtonsShown s then
      { s with phase := .qa, step := (editTargets i).1,
               input := aget s.answers (editTargets i).2 }
    else s
  | .typePurchase v =>
    if s.csv.isSome = true ∧ s.phase = .purchase then
      match PURCHASE_FIELDS[s.pStep]? with
      | some f => { s with purchase := setPF s.purchase f.id v }
      | none => s
    else s
  | .nextPurchase =>
    if s.csv.isSome = true ∧ s.phase = .purchase then nextPurchaseFn s else s
  | .backPurchase =>
    if s.csv.isSome = true ∧ s.phase = .purchase then backPurchaseFn s else s
  | .consentAgree =>
    if s.csv.isSome = true ∧ s.phase = .consent then { s with phase := .delivery } else s
  | .consentDisagree =>
    if s.csv.isSome = true ∧ s.phase = .consent then { s with phase := .delivery } else s
  | .consentBack =>
    if s.csv.isSome = true ∧ s.phase = .consent then { s with phase := .purchase } else s
  | .chooseDelivery c =>
    if s.csv.isSome = true ∧ s.phase = .delivery ∧ s.deliveryChoice = none then
      chooseDeliveryFn c s
    else s
  | .typeDelivery v =>
    if s.csv.isSome = true ∧ s.phase = .delivery ∧ s.deliveryChoice ≠ none then
      { s with deliveryValue := v }
    else s
  | .deliveryBackToChoice =>
    if s.csv.isSome = true ∧ s.phase = .delivery ∧ s.deliveryChoice ≠ none then
      { s with deliveryChoice := none }
    else s
  | .deliveryBackToConsent =>
    if s.csv.isSome = true ∧ s.phase = .delivery ∧ s.deliveryChoice = none then
      { s with phase := .consent }
    else s
  | .submitDelivery =>
    if s.csv.isSome = true ∧ s.phase = .delivery ∧ s.deliveryChoice ≠ none then
      submitDeliveryFn s
    else s
  | .restartDone =>
    if s.csv.isSome = true ∧ s.phase = .done then resetAllSt s else s

/-- The states the UI can reach from a fresh load, under clock `today`. -/
inductive Reachable (today : Ymd) : AppState → Prop where
  | init : Reachable today initState
  | step : ∀ {s} (e : Event), Reachable today s → Reachable today (stepFn today s e)

/-! ### Supporting lemmas about the string model -/

theorem trimTrailing_eq_rdropWhile (l : List Char) :
    trimTrailing l = l.rdropWhile Char.isWhitespace := rfl

theorem jtrim_data (s : String) :
    (jtrim s).data = (s.data.dropWhile Char.isWhitespace).rdropWhile Char.isWhitespace := rfl

/-- The head of `dropWhile p l` does not satisfy `p`. -/
theorem head?_dropWhile_false (p : Char → Bool) (l : List Char) (c : Char)
    (h : (l.dropWhile p).head? = some c) : p c = false := by
  induction l with
  | nil => simp at h
  | cons a t ih =>
    rw [List.dropWhile_cons] at h
    split at h
    · exact ih h
    · rename_i hpa
      simp only [List.head?_cons, Option.some.injEq] at h
      subst h
      exact eq_false_of_ne_true hpa

/-- After dropping the leading whitespace, removing trailing whitespace
creates no new leading whitespace. -/
theorem trimLeading_trimTrailing_trimLeading (l : List Char) :
    trimLeading (trimTrailing (trimLeading l)) = trimTrailing (trimLeading l) := by
  set p := Char.isWhitespace with hp
  show List.dropWhile p (List.rdropWhile p (List.dropWhile p l))
      = List.rdropWhile p (List.dropWhile p l)
  rcases hn : List.rdropWhile p (List.dropWhile p l) with _ | ⟨c, t⟩
  · simp
  · have hpre : List.rdropWhile p (List.dropWhile p l) <+: List.dropWhile p l :=
      List.rdropWhile_prefix _ _
    rw [hn] at hpre
    obtain ⟨tail, htail⟩ := hpre
    have hhead : (List.dropWhile p l).head? = some c := by
      rw [← htail]; rfl
    have hpc : p c = false := head?_dropWhile_false p l c hhead
    rw [List.dropWhile_cons, if_neg (by simp [hpc])]

/-- JS `trim` is idempotent. -/
theorem jtrim_idem (s : String) : jtrim (jtrim s) = jtrim s := by
  show (⟨trimTrailing (trimLeading (trimTrailing (trimLeading s.data)))⟩ : String) = _
  rw [trimLeading_trimTrailing_trimLeading, trimTrailing_eq_rdropWhile,
    trimTrailing_eq_rdropWhile, List.rdropWhile_idempotent]
  rfl

/-- Filtering by a predicate that no whitespace character satisfies is
unaffected by trimming. -/
theorem filter_jtrim (q : Char → Bool) (h : ∀ c, Char.isWhitespace c → q c = false)
    (s : String) : (jtrim s).data.filter q = s.data.filter q := by
  have hdrop : ∀ l : List Char, (l.dropWhile Char.isWhitespace).filter q = l.filter q := by
    intro l
    conv_rhs => rw [← List.takeWhile_append_dropWhile (p := Char.isWhitespace) (l := l)]
    rw [List.filter_append]
    have : (l.takeWhile Char.isWhitespace).filter q = [] := by
      rw [List.filter_eq_nil_iff]
      intro a ha
      simp [h a (List.mem_takeWhile_imp ha)]
    simp [this]
  rw [jtrim_data, List.rdropWhile, List.filter_reverse, hdrop, List.filter_reverse,
    List.reverse_reverse, hdrop]

/-- A list already of the form `filter p l` is unchanged by `filter p`. -/
theorem filter_filter_self (p : Char → Bool) (l : List Char) :
    (l.filter p).filter p = l.filter p := by
  rw [List.filter_eq_self]
  intro a ha
  exact (List.mem_filter.mp ha).2

/-- A string with no whitespace characters is unchanged by `trim`. -/
theorem jtrim_of_no_ws (l : List Char) (h : ∀ c ∈ l, Char.isWhitespace c = false) :
    jtrim ⟨l⟩ = ⟨l⟩ := by
  have h1 : trimLeading l = l := by
    unfold trimLeading
    rcases l with _ | ⟨c, t⟩
    · rfl
    · rw [List.dropWhile_cons, if_neg (by simp [h c (by simp)])]
  show (⟨trimTrailing (trimLeading l)⟩ : String) = _
  rw [h1, trimTrailing_eq_rdropWhile, List.rdropWhile_eq_self_iff.mpr]
  intro hl
  simp [h _ (List.getLast_mem hl)]

/-! ### Phone normalization lemmas -/

theorem digitsOf_mk (l : List Char) : digitsOf ⟨l⟩ = l.filter Char.isDigit := rfl

theorem digitsOf_all_digit (s : String) : (digitsOf s).all Char.isDigit = true := by
  rw [List.all_eq_true]
  intro c hc
  exact (List.mem_filter.mp hc).2

theorem filter_digit_of_all (ds : List Char) (h : ds.all Char.isDigit = true) :
    ds.filter Char.isDigit = ds := by
  rw [List.filter_eq_self]
  intro a ha
  exact (List.all_eq_true.mp h) a ha

theorem ws_not_digit (c : Char) (h : Char.isWhitespace c = true) :
    Char.isDigit c = false := by
  have h2 : ((c = ' ' ∨ c = '\t') ∨ c = '\x0d') ∨ c = '\n' := by
    simpa [Char.isWhitespace] using h
  rcases h2 with ((rfl | rfl) | rfl) | rfl <;> decide

theorem digitsOf_jtrim (s : String) : digitsOf (jtrim s) = digitsOf s :=
  filter_jtrim Char.isDigit ws_not_digit s

theorem digit_not_ws (c : Char) (h : Char.isDigit c = true) :
    Char.isWhitespace c = false := by
  cases hw : Char.isWhitespace c
  · rfl
  · have := ws_not_digit c hw
    rw [h] at this
    simp at this

/-- A plus sign followed by digits has no whitespace, so `trim` keeps it. -/
theorem jtrim_plus_digits (ds : List Char) (h : ds.all Char.isDigit = true) :
    jtrim ⟨'+' :: ds⟩ = ⟨'+' :: ds⟩ := by
  refine jtrim_of_no_ws _ ?_
  intro c hc
  rcases List.mem_cons.mp hc with rfl | hmem
  · decide
  · exact digit_not_ws c (List.all_eq_true.mp h c hmem)

theorem normalizePhone_of_eleven (s : String)
    (h1 : (digitsOf s).length = 11) (h2 : (digitsOf s).head? = some '1') :
    normalizePhone s = ⟨'+' :: digitsOf s⟩ := by
  rw [normalizePhone, if_pos ⟨h1, h2⟩]

theorem normalizePhone_of_ten (s : String) (h : (digitsOf s).length = 10) :
    normalizePhone s = ⟨'+' :: '1' :: digitsOf s⟩ := by
  rw [normalizePhone, if_neg (by simp [h]), if_pos h]

theorem normalizePhone_of_mid (s : String)
    (hn1 : ¬ ((digitsOf s).length = 11 ∧ (digitsOf s).head? = some '1'))
    (hn2 : (digitsOf s).length ≠ 10)
    (h : 7 ≤ (digitsOf s).length ∧ (digitsOf s).length ≤ 15) :
    normalizePhone s = ⟨'+' :: digitsOf s⟩ := by
  rw [normalizePhone, if_neg hn1, if_neg hn2, if_pos h]

theorem normalizePhone_of_out (s : String)
    (hn1 : ¬ ((digitsOf s).length = 11 ∧ (digitsOf s).head? = some '1'))
    (hn2 : (digitsOf s).length ≠ 10)
    (hn3 : ¬ (7 ≤ (digitsOf s).length ∧ (digitsOf s).length ≤ 15)) :
    normalizePhone s = jtrim s := by
  rw [normalizePhone, if_neg hn1, if_neg hn2, if_neg hn3]

/-- Re-normalizing any output of `normalizePhone` returns it unchanged. -/
theorem normalizePhone_idem (s : String) :
    normalizePhone (normalizePhone s) = normalizePhone s := by
  by_cases c1 : (digitsOf s).length = 11 ∧ (digitsOf s).head? = some '1'
  · rw [normalizePhone_of_eleven s c1.1 c1.2]
    have hd : digitsOf ⟨'+' :: digitsOf s⟩ = digitsOf s := by
      rw [digitsOf_mk, List.filter_cons_of_neg (by decide),
        filter_digit_of_all _ (digitsOf_all_digit s)]
    have h2 := normalizePhone_of_eleven _ (by rw [hd]; exact c1.1) (by rw [hd]; exact c1.2)
    rw [hd] at h2
    exact h2
  · by_cases c2 : (digitsOf s).length = 10
    · rw [normalizePhone_of_ten s c2]
      have hd : digitsOf ⟨'+' :: '1' :: digitsOf s⟩ = '1' :: digitsOf s := by
        rw [digitsOf_mk, List.filter_cons_of_neg (by decide),
          List.filter_cons_of_pos (by decide),
          filter_digit_of_all _ (digitsOf_all_digit s)]
      have h2 := normalizePhone_of_eleven _ (by rw [hd]; simp [c2]) (by rw [hd]; simp)
      rw [hd] at h2
      exact h2
    · by_cases c3 : 7 ≤ (digitsOf s).length ∧ (digitsOf s).length ≤ 15
      · rw [normalizePhone_of_mid s c1 c2 c3]
        have hd : digitsOf ⟨'+' :: digitsOf s⟩ = digitsOf s := by
          rw [digitsOf_mk, List.filter_cons_of_neg (by decide),
            filter_digit_of_all _ (digitsOf_all_digit s)]
        have h2 := normalizePhone_of_mid _ (by rw [hd]; exact c1) (by rw [hd]; exact c2)
          (by rw [hd]; exact c3)
        rw [hd] at h2
        exact h2
      · rw [normalizePhone_of_out s c1 c2 c3]
        have hd : digitsOf (jtrim s) = digitsOf s := digitsOf_jtrim s
        rw [normalizePhone_of_out _ (by rw [hd]; exact c1) (by rw [hd]; exact c2)
          (by rw [hd]; exact c3)]
        exact jtrim_idem s

/-- Unfolding of the `/^\+\d{10,15}$/` test. -/
theorem phoneRe_iff (t : String) : phoneRe t = true ↔
    ∃ ds : List Char, t.data = '+' :: ds ∧ ds.all Char.isDigit = true ∧
      10 ≤ ds.length ∧ ds.length ≤ 15 := by
  obtain ⟨l⟩ := t
  cases l with
  | nil => simp [phoneRe]
  | cons c rest =>
    show (c == '+' && rest.all Char.isDigit &&
      decide (10 ≤ rest.length) && decide (rest.length ≤ 15)) = true ↔ _
    constructor
    · intro h
      simp only [Bool.and_eq_true, beq_iff_eq, decide_eq_true_eq] at h
      exact ⟨rest, by simp [h.1.1.1], h.1.1.2, h.1.2, h.2⟩
    · rintro ⟨ds, hds, hall, h10, h15⟩
      simp only [String.data] at hds
      obtain ⟨rfl, rfl⟩ : c = '+' ∧ ds = rest := by
        have := List.cons.inj hds
        exact ⟨this.1, this.2.symm⟩
      simp [hall, h10, h15]

/-- C6.  A 10-digit input normalizes to `+1` plus its digits; an 11-digit
input whose digits start with `1` normalizes to `+` plus its digits, which
is the same `+1` plus the remaining 10 digits; and `isValidPhone` accepts a
string exactly when its normalized form is `+` followed by 10 to 15 digits. -/
theorem phone_normalization_spec :
    (∀ s : String, (digitsOf s).length = 10 →
        normalizePhone s = ⟨'+' :: '1' :: digitsOf s⟩) ∧
    (∀ s : String, (digitsOf s).length = 11 → (digitsOf s).head? = some '1' →
        normalizePhone s = ⟨'+' :: digitsOf s⟩ ∧
        normalizePhone s = ⟨'+' :: '1' :: (digitsOf s).tail⟩) ∧
    (∀ s : String, isValidPhone s = true ↔
        ∃ ds : List Char, (normalizePhone s).data = '+' :: ds ∧
          ds.all Char.isDigit = true ∧ 10 ≤ ds.length ∧ ds.length ≤ 15) := by
  refine ⟨fun s h => normalizePhone_of_ten s h,
    fun s h1 h2 => ⟨normalizePhone_of_eleven s h1 h2, ?_⟩,
    fun s => phoneRe_iff (normalizePhone s)⟩
  rw [normalizePhone_of_eleven s h1 h2]
  cases hds : digitsOf s with
  | nil => rw [hds] at h2; simp at h2
  | cons a t =>
    rw [hds] at h2
    simp only [List.head?_cons, Option.some.injEq] at h2
    subst h2
    rfl

/-- Closed instance of `phone_normalization_spec` at concrete inputs. -/
theorem phone_normalization_spec_witness :
    normalizePhone "555-123-4567" = "+15551234567" ∧
    normalizePhone "1 (555) 123-4567" = "+15551234567" ∧
    (isValidPhone "12345" = true ↔
      ∃ ds : List Char, (normalizePhone "12345").data = '+' :: ds ∧
        ds.all Char.isDigit = true ∧ 10 ≤ ds.length ∧ ds.length ≤ 15) := by
  refine ⟨?_, ?_, phone_normalization_spec.2.2 "12345"⟩
  · have h := phone_normalization_spec.1 "555-123-4567" (by decide)
    rw [h]; decide
  · have h := (phone_normalization_spec.2.1 "1 (555) 123-4567" (by decide) (by decide)).1
    rw [h]; decide

/-- C9.  `normalizePhone` is idempotent: re-normalizing an already
normalized phone number, in any of its output forms, leaves it unchanged. -/
theorem normalizePhone_idempotent (s : String) :
    normalizePhone (normalizePhone s) = normalizePhone s := normalizePhone_idem s

/-! ### Matcher lemmas -/

/-- On a question with a CSV column, `matchesQ` is the normalized equality
of the row cell with the interpreted answer (and requires the cell to be
present). -/
theorem matchesQ_some_iff (r : Row) (q : QuestionCfg) (col a : String)
    (h : q.csvColumn = some col) :
    matchesQ r q a = true ↔
      ∃ cell, rowGet r col = some cell ∧
        normalize cell = normalize (interpretAnswer q.id a) := by
  unfold matchesQ
  rw [h]
  cases hr : rowGet r col with
  | none => simp [hr]
  | some cell => simp [hr, beq_iff_eq]

/-- The four CSV-mapped questions. -/
theorem mapped_questions :
    QUESTION_CONFIG.filter (fun q => q.csvColumn.isSome) =
      [⟨"q1", some "state", some "equals"⟩,
       ⟨"q2", some "city", some "equals"⟩,
       ⟨"q3", some "bond_limit", some "equals"⟩,
       ⟨"q4", some "name", some "equals"⟩] := rfl

/-- Membership in `strictMatch` is membership in the input plus the four
per-question matches. -/
theorem mem_strictMatch (rows : List Row) (ans : Answers) (r : Row) :
    r ∈ strictMatch rows ans ↔ r ∈ rows ∧
      matchesQ r ⟨"q1", some "state", some "equals"⟩ (aget ans "q1") = true ∧
      matchesQ r ⟨"q2", some "city", some "equals"⟩ (aget ans "q2") = true ∧
      matchesQ r ⟨"q3", some "bond_limit", some "equals"⟩ (aget ans "q3") = true ∧
      matchesQ r ⟨"q4", some "name", some "equals"⟩ (aget ans "q4") = true := by
  unfold strictMatch
  rw [mapped_questions, List.mem_filter]
  simp [List.all_cons]

/-- The condition of the C1 specification, spelled over `QUESTION_CONFIG`. -/
def rowMatchesAll (r : Row) (ans : Answers) : Prop :=
  ∀ q ∈ QUESTION_CONFIG, ∀ col, q.csvColumn = some col →
    ∃ cell, rowGet r col = some cell ∧
      normalize cell = normalize (interpretAnswer q.id (aget ans q.id))

theorem rowMatchesAll_iff (r : Row) (ans : Answers) :
    rowMatchesAll r ans ↔
      matchesQ r ⟨"q1", some "state", some "equals"⟩ (aget ans "q1") = true ∧
      matchesQ r ⟨"q2", some "city", some "equals"⟩ (aget ans "q2") = true ∧
      matchesQ r ⟨"q3", some "bond_limit", some "equals"⟩ (aget ans "q3") = true ∧
      matchesQ r ⟨"q4", some "name", some "equals"⟩ (aget ans "q4") = true := by
  unfold rowMatchesAll QUESTION_CONFIG
  rw [matchesQ_some_iff r _ "state" _ rfl, matchesQ_some_iff r _ "city" _ rfl,
    matchesQ_some_iff r _ "bond_limit" _ rfl, matchesQ_some_iff r _ "name" _ rfl]
  constructor
  · intro h
    exact ⟨h _ (by simp) "state" rfl, h _ (by simp) "city" rfl,
      h _ (by simp) "bond_limit" rfl, h _ (by simp) "name" rfl⟩
  · rintro ⟨h1, h2, h3, h4⟩ q hq col hcol
    simp only [List.mem_cons, List.not_mem_nil, or_false] at hq
    rcases hq with rfl | rfl | rfl | rfl | rfl
    · obtain rfl := Option.some.inj hcol
      exact h1
    · obtain rfl := Option.some.inj hcol
      exact h2
    · obtain rfl := Option.some.inj hcol
      exact h3
    · obtain rfl := Option.some.inj hcol
      exact h4
    · exact Option.noConfusion hcol

/-- C1.  `strictMatch` returns exactly the rows on which each of the four
CSV-mapped questions (state, city, bond_limit, name) matches: the cell is
present and, after trimming and lowercasing both sides, equals the
interpreted answer (state abbreviation expanded, bond limit canonicalized).
In particular a row matching all four mapped fields is returned, and when
no row matches the result is empty (the UI then shows the inquiry
fallback). -/
theorem strictMatch_exact_spec (rows : List Row) (ans : Answers) :
    (∀ r, r ∈ strictMatch rows ans ↔ r ∈ rows ∧ rowMatchesAll r ans) ∧
    (strictMatch rows ans = [] ↔ ∀ r ∈ rows, ¬ rowMatchesAll r ans) := by
  have hmem : ∀ r, r ∈ strictMatch rows ans ↔ r ∈ rows ∧ rowMatchesAll r ans := by
    intro r
    rw [mem_strictMatch, rowMatchesAll_iff]
  refine ⟨hmem, ?_⟩
  rw [List.eq_nil_iff_forall_not_mem]
  constructor
  · intro h r hr hP
    exact h r ((hmem r).mpr ⟨hr, hP⟩)
  · intro h r hmem2
    obtain ⟨hr, hP⟩ := (hmem r).mp hmem2
    exact h r hr hP

/-- Closed instance of `strictMatch_exact_spec`: a matching row is
returned, and an answer set matching nothing yields the empty result. -/
theorem strictMatch_exact_spec_witness :
    ([("state", "Illinois"), ("city", "Chicago"), ("bond_limit", "50000"),
       ("name", "City of Chicago")] : Row) ∈
      strictMatch [[("state", "Illinois"), ("city", "Chicago"),
        ("bond_limit", "50000"), ("name", "City of Chicago")]]
        [("q1", "IL"), ("q2", " chicago "), ("q3", "$50,000"),
         ("q4", "City of Chicago")] ∧
    strictMatch [[("state", "Illinois"), ("city", "Chicago"),
        ("bond_limit", "50000"), ("name", "City of Chicago")]]
        [("q1", "Texas"), ("q2", "Chicago"), ("q3", "50000"),
         ("q4", "City of Chicago")] = [] := by
  constructor
  · exact ((strictMatch_exact_spec _ _).1 _).mpr
      ⟨by decide, (rowMatchesAll_iff _ _).mpr (by decide)⟩
  · refine (strictMatch_exact_spec _ _).2.mpr ?_
    intro r hr
    simp only [List.mem_singleton] at hr
    subst hr
    rw [rowMatchesAll_iff]
    decide

/-- C4.  `strictMatch` is an order-preserving filter of its input (so there
is no ranking), and the primary record used by the UI is the head of the
filtered list, `none` exactly when nothing matched (which triggers the
inquiry fallback). -/
theorem strictMatch_first_match (rows : List Row) (ans : Answers) :
    List.Sublist (strictMatch rows ans) rows ∧
    primaryOf rows ans = (strictMatch rows ans).head? ∧
    (primaryOf rows ans = none ↔ strictMatch rows ans = []) := by
  refine ⟨List.filter_sublist rows, ?_, ?_⟩
  · unfold primaryOf
    cases strictMatch rows ans <;> simp
  · unfold primaryOf
    cases strictMatch rows ans <;> simp

/-- C3 counterexample.  Both the answer `$50,000` and the row cell `50,000`
denote the number 50000 (both canonicalize to the string `50000`), yet the
matcher rejects the row: the row side is compared textually, so a
formatting difference in the cell prevents the match. -/
theorem bondLimit_numeric_claim_counterexample :
    interpretAnswer "q3" "$50,000" = "50000" ∧
    interpretAnswer "q3" "50,000" = "50000" ∧
    matchesQ [("bond_limit", "50,000")]
      ⟨"q3", some "bond_limit", some "equals"⟩ "$50,000" = false := by
  refine ⟨by decide, by decide, by decide⟩

/-- C3 (amended).  Only the answer is canonicalized numerically (strip the
characters outside `[0-9.-]`, then re-render the number); the match then
requires trimmed, lowercased textual equality with the row's bond_limit
cell as written.  Formatting in the answer is tolerated (`$50,000` matches
a cell `50000`), but a cell whose text differs from the canonical form does
not match even when it denotes the same number. -/
theorem bondLimit_match_spec :
    (∀ (row : Row) (answer : String),
      matchesQ row ⟨"q3", some "bond_limit", some "equals"⟩ answer = true ↔
        ∃ cell, rowGet row "bond_limit" = some cell ∧
          normalize cell = normalize (interpretQ3 answer)) ∧
    matchesQ [("bond_limit", "50000")]
      ⟨"q3", some "bond_limit", some "equals"⟩ "$50,000" = true := by
  constructor
  · intro row answer
    have h := matchesQ_some_iff row
      ⟨"q3", some "bond_limit", some "equals"⟩ "bond_limit" answer rfl
    have he : interpretAnswer "q3" answer = interpretQ3 answer := rfl
    rw [he] at h
    exact h
  · decide

/-- C10.  An empty (or absent) answer to a mapped question is not a
wildcard: `strictMatch` then keeps only rows whose cell in that column
trims to the empty string; and a row lacking a mapped column is excluded
for every answer set. -/
theorem empty_answer_not_wildcard :
    (∀ (rows : List Row) (ans : Answers) (q : QuestionCfg) (col : String),
      q ∈ QUESTION_CONFIG → q.csvColumn = some col → aget ans q.id = "" →
      ∀ r ∈ strictMatch rows ans,
        ∃ cell, rowGet r col = some cell ∧ normalize cell = "") ∧
    (∀ (rows : List Row) (ans : Answers) (q : QuestionCfg) (col : String) (r : Row),
      q ∈ QUESTION_CONFIG → q.csvColumn = some col → rowGet r col = none →
      r ∉ strictMatch rows ans) := by
  constructor
  · intro rows ans q col hq hcol hempty r hr
    rw [mem_strictMatch] at hr
    obtain ⟨-, h1, h2, h3, h4⟩ := hr
    simp only [QUESTION_CONFIG, List.mem_cons, List.not_mem_nil, or_false] at hq
    rcases hq with rfl | rfl | rfl | rfl | rfl
    · obtain rfl := Option.some.inj hcol
      obtain ⟨cell, hc, hn⟩ := (matchesQ_some_iff r _ "state" _ rfl).mp h1
      refine ⟨cell, hc, ?_⟩
      rw [hn]
      show normalize (interpretAnswer "q1" (aget ans "q1")) = ""
      rw [hempty]
      decide
    · obtain rfl := Option.some.inj hcol
      obtain ⟨cell, hc, hn⟩ := (matchesQ_some_iff r _ "city" _ rfl).mp h2
      refine ⟨cell, hc, ?_⟩
      rw [hn]
      show normalize (interpretAnswer "q2" (aget ans "q2")) = ""
      rw [hempty]
      decide
    · obtain rfl := Option.some.inj hcol
      obtain ⟨cell, hc, hn⟩ := (matchesQ_some_iff r _ "bond_limit" _ rfl).mp h3
      refine ⟨cell, hc, ?_⟩
      rw [hn]
      show normalize (interpretAnswer "q3" (aget ans "q3")) = ""
      rw [hempty]
      decide
    · obtain rfl := Option.some.inj hcol
      obtain ⟨cell, hc, hn⟩ := (matchesQ_some_iff r _ "name" _ rfl).mp h4
      refine ⟨cell, hc, ?_⟩
      rw [hn]
      show normalize (interpretAnswer "q4" (aget ans "q4")) = ""
      rw [hempty]
      decide
    · exact Option.noConfusion hcol
  · intro rows ans q col r hq hcol hnone hmem
    rw [mem_strictMatch] at hmem
    obtain ⟨-, h1, h2, h3, h4⟩ := hmem
    simp only [QUESTION_CONFIG, List.mem_cons, List.not_mem_nil, or_false] at hq
    rcases hq with rfl | rfl | rfl | rfl | rfl
    · obtain rfl := Option.some.inj hcol
      obtain ⟨cell, hc, -⟩ := (matchesQ_some_iff r _ "state" _ rfl).mp h1
      rw [hnone] at hc
      exact Option.noConfusion hc
    · obtain rfl := Option.some.inj hcol
      obtain ⟨cell, hc, -⟩ := (matchesQ_some_iff r _ "city" _ rfl).mp h2
      rw [hnone] at hc
      exact Option.noConfusion hc
    · obtain rfl := Option.some.inj hcol
      obtain ⟨cell, hc, -⟩ := (matchesQ_some_iff r _ "bond_limit" _ rfl).mp h3
      rw [hnone] at hc
      exact Option.noConfusion hc
    · obtain rfl := Option.some.inj hcol
      obtain ⟨cell, hc, -⟩ := (matchesQ_some_iff r _ "name" _ rfl).mp h4
      rw [hnone] at hc
      exact Option.noConfusion hc
    · exact Option.noConfusion hcol

/-- Closed instance of `empty_answer_not_wildcard`: with an empty city
answer, a row with a whitespace-only city cell is the only survivor, and a
row missing the city column is excluded. -/
theorem empty_answer_not_wildcard_witness :
    (∃ cell, rowGet [("state", ""), ("city", "  "), ("bond_limit", ""),
        ("name", "")] "city" = some cell ∧ normalize cell = "") ∧
    ([("state", ""), ("bond_limit", ""), ("name", "")] : Row) ∉
      strictMatch [[("state", ""), ("bond_limit", ""), ("name", "")]] [] := by
  constructor
  · exact empty_answer_not_wildcard.1
      [[("state", ""), ("city", "  "), ("bond_limit", ""), ("name", "")]] []
      ⟨"q2", some "city", some "equals"⟩ "city" (by decide) rfl (by decide)
      _ (by decide)
  · exact empty_answer_not_wildcard.2
      [[("state", ""), ("bond_limit", ""), ("name", "")]] []
      ⟨"q2", some "city", some "equals"⟩ "city" _ (by decide) rfl (by decide)

/-- C5.  Any input that trims and uppercases to a known 2-letter state
abbreviation (so any letter case, with surrounding whitespace) expands to
the corresponding full state name; the state question is matched on
`stateFromInput`; and any other input is returned trimmed, otherwise
unchanged. -/
theorem stateFromInput_spec :
    (∀ (s abbr full : String), (abbr, full) ∈ stateTable →
        upperStr (jtrim s) = abbr → stateFromInput s = full) ∧
    (∀ raw : String, interpretAnswer "q1" raw = stateFromInput raw) ∧
    (∀ s : String, lookupTable stateTable (upperStr (jtrim s)) = none →
        stateFromInput s = jtrim s) := by
  refine ⟨?_, fun raw => rfl, ?_⟩
  · intro s abbr full hmem heq
    have hall : stateTable.all
        (fun p => lookupTable stateTable p.1 == some p.2) = true := by decide
    have hlk : lookupTable stateTable abbr = some full := by
      have h2 := List.all_eq_true.mp hall _ hmem
      simpa using h2
    show (match lookupTable stateTable (upperStr (jtrim s)) with
      | some f => f
      | none => jtrim s) = full
    rw [heq, hlk]
  · intro s h
    show (match lookupTable stateTable (upperStr (jtrim s)) with
      | some f => f
      | none => jtrim s) = jtrim s
    rw [h]

/-- Closed instance of `stateFromInput_spec` at concrete inputs. -/
theorem stateFromInput_spec_witness :
    stateFromInput " il " = "Illinois" ∧
    interpretAnswer "q1" " il " = stateFromInput " il " ∧
    stateFromInput " Chicago " = jtrim " Chicago " :=
  ⟨stateFromInput_spec.1 " il " "IL" "Illinois" (by decide) (by decide),
   stateFromInput_spec.2.1 " il ",
   stateFromInput_spec.2.2 " Chicago " (by decide)⟩

/-- C2 counterexample.  On 2024-01-01 (any day from which the coming year
contains a Feb 29), the validator accepts 2025-01-01, which is 366 days
after today — outside the claimed closed interval of today plus 365 days. -/
theorem dateWindow_claim_counterexample :
    validateQ5 ⟨2024, 1, 1⟩ (some ⟨2025, 1, 1⟩) = "" ∧
    rd ⟨2025, 1, 1⟩ = rd ⟨2024, 1, 1⟩ + 366 := by
  refine ⟨by decide, by decide⟩

/-- C2 (amended).  The validator accepts exactly the parseable dates in the
closed interval from today to the same calendar date next year (Feb 29
mapping to Mar 1): that is today plus 365 days, except that it is today
plus 366 days when a Feb 29 lies inside the window. -/
theorem validateQ5_spec (today : Ymd) (val : Option Ymd) :
    validateQ5 today val = "" ↔
      ∃ d, val = some d ∧ rd today ≤ rd d ∧ rd d ≤ rd (plusOneYearYMD today) := by
  cases val with
  | none => simp [validateQ5]
  | some d =>
    show (if rd d < rd today then
        "Effective date cannot be in the past. Please select today or a future date."
      else if rd (plusOneYearYMD today) < rd d then
        "Effective date must be within the next year."
      else "") = "" ↔
      ∃ d1, some d = some d1 ∧ rd today ≤ rd d1 ∧ rd d1 ≤ rd (plusOneYearYMD today)
    by_cases h1 : rd d < rd today
    · rw [if_pos h1]
      constructor
      · intro h
        exact absurd h (by decide)
      · rintro ⟨d1, hd, hle, -⟩
        obtain rfl := Option.some.inj hd
        omega
    · by_cases h2 : rd (plusOneYearYMD today) < rd d
      · rw [if_neg h1, if_pos h2]
        constructor
        · intro h
          exact absurd h (by decide)
        · rintro ⟨d1, hd, -, hle⟩
          obtain rfl := Option.some.inj hd
          omega
      · rw [if_neg h1, if_neg h2]
        constructor
        · intro _
          exact ⟨d, rfl, by omega, by omega⟩
        · intro _
          rfl

/-- C7.  A failed remote lookup (non-OK HTTP response, query error, or a
thrown client exception) yields a `null` match rather than propagating the
failure; the loaded summary phase with a `null` primary shows the inquiry
screen.  Each lookup function is a pure function of its single response:
there is no retry and no other recovery logic. -/
theorem lookup_failure_degrades :
    (∀ (status : Nat) (text : String),
      findExactBondViaApi (.httpError status text) = none ∧
      summaryView false (findExactBondViaApi (.httpError status text)) = .inquiry) ∧
    (∀ msg : String,
      findExactBond (.queryError msg) = none ∧
      findExactBondClient (.result (.queryError msg)) = (none, some msg) ∧
      findExactBondClient (.thrown msg) = (none, some "client-exception") ∧
      summaryView false none = .inquiry) :=
  ⟨fun _ _ => ⟨rfl, rfl⟩, fun _ => ⟨rfl, rfl, rfl, rfl⟩⟩

/-! ### The wizard invariant (C8) -/

/-- The purchase field at position `i` of `PURCHASE_FIELDS`. -/
def fieldAt (c : ContactInfo) : Nat → String
  | 0 => c.companyName
  | 1 => c.contactName
  | 2 => c.companyAddress
  | 3 => c.contactPhone
  | 4 => c.contactEmail
  | _ => ""

/-- Field `i` has passed its `nextPurchase` validation: non-empty after
trimming, and for the phone (3) and email (4) fields also format-valid,
the phone being stored in normalized form. -/
def fieldOkAt (c : ContactInfo) (i : Nat) : Prop :=
  jtrim (fieldAt c i) ≠ "" ∧
  (i = 3 → isValidPhone (fieldAt c i) = true ∧
    normalizePhone (fieldAt c i) = fieldAt c i) ∧
  (i = 4 → isValidEmail (fieldAt c i) = true)

/-- The phases after the purchase phase. -/
def pastPurchase (ph : Phase) : Prop :=
  ph = .consent ∨ ph = .delivery ∨ ph = .done

instance (ph : Phase) : Decidable (pastPurchase ph) := by
  unfold pastPurchase
  exact inferInstance

/-- The inductive invariant: the purchase index stays in range, every field
below it has passed validation, and past the purchase phase all five
fields have. -/
def Inv (s : AppState) : Prop :=
  s.pStep ≤ 4 ∧ (∀ i < s.pStep, fieldOkAt s.purchase i) ∧
  (pastPurchase s.phase → ∀ i < 5, fieldOkAt s.purchase i)

theorem isValidEmail_jtrim (s : String) : isValidEmail (jtrim s) = isValidEmail s := by
  unfold isValidEmail
  rw [jtrim_idem]

/-- A value accepted by `isValidPhone` normalizes to a non-empty,
whitespace-free string that is a fixed point of both `normalizePhone` and
`jtrim` and is itself a valid phone. -/
theorem valid_phone_normalized (v : String) (h : isValidPhone v = true) :
    jtrim (normalizePhone v) = normalizePhone v ∧ normalizePhone v ≠ "" ∧
    isValidPhone (normalizePhone v) = true ∧
    normalizePhone (normalizePhone v) = normalizePhone v := by
  have hre : phoneRe (normalizePhone v) = true := h
  obtain ⟨ds, hds, hall, -, -⟩ := (phoneRe_iff _).mp hre
  have hv2 : normalizePhone v = ⟨'+' :: ds⟩ := by
    rw [← hds]
  have hidem := normalizePhone_idem v
  refine ⟨?_, ?_, ?_, hidem⟩
  · rw [hv2]
    exact jtrim_plus_digits ds hall
  · rw [hv2]
    simp [String.ext_iff]
  · show phoneRe (normalizePhone (normalizePhone v)) = true
    rw [hidem]
    exact hre

theorem inv_init : Inv initState := by
  refine ⟨?_, ?_, ?_⟩
  · show (0 : Nat) ≤ 4
    omega
  · intro i hi
    exact absurd (show i < 0 from hi) (by omega)
  · intro hp
    exact absurd hp (by decide)

/-- Unfolding of `nextPurchaseFn` once the current field is known. -/
theorem nextPurchaseFn_eq (s : AppState) (f : PurchaseFieldCfg)
    (hf : PURCHASE_FIELDS[s.pStep]? = some f) :
    nextPurchaseFn s =
      (if jtrim (getPF s.purchase f.id) = "" then
        { s with pError := f.prompt ++ " is required." }
      else if f.id = .contactEmail ∧ isValidEmail (jtrim (getPF s.purchase f.id)) = false then
        { s with pError := "Please enter a valid email address." }
      else if f.id = .contactPhone ∧ isValidPhone (jtrim (getPF s.purchase f.id)) = false then
        { s with pError := "Please enter a valid mobile phone number (SMS-capable)." }
      else
        if s.pStep + 1 < PURCHASE_FIELDS.length then
          { (if f.id = .contactPhone then
              { s with purchase :=
                  setPF s.purchase f.id (normalizePhone (jtrim (getPF s.purchase f.id))) }
            else s) with pError := "", pStep := s.pStep + 1 }
        else
          { (if f.id = .contactPhone then
              { s with purchase :=
                  setPF s.purchase f.id (normalizePhone (jtrim (getPF s.purchase f.id))) }
            else s) with pError := "", phase := .consent }) := by
  unfold nextPurchaseFn
  rw [hf]

/-- `nextPurchase` preserves the invariant while in the purchase phase. -/
theorem nextPurchase_inv (s : AppState) (h : Inv s) (hph : s.phase = .purchase) :
    Inv (nextPurchaseFn s) := by
  obtain ⟨hps, hlt, hpast⟩ := h
  have hnotpast : ¬ pastPurchase s.phase := by
    rw [hph]
    decide
  have h5 : s.pStep = 0 ∨ s.pStep = 1 ∨ s.pStep = 2 ∨ s.pStep = 3 ∨ s.pStep = 4 := by
    omega
  rcases h5 with hp | hp | hp | hp | hp
  · -- companyName
    rw [nextPurchaseFn_eq s ⟨.companyName, "Company Name"⟩ (by rw [hp]; rfl)]
    by_cases hempty : jtrim (getPF s.purchase PFieldId.companyName) = ""
    · rw [if_pos hempty]
      exact ⟨hps, hlt, hpast⟩
    · rw [if_neg hempty, if_neg (by simp), if_neg (by simp), hp,
        if_pos (show 0 + 1 < PURCHASE_FIELDS.length by decide),
        if_neg (show ¬ ((⟨.companyName, "Company Name"⟩ : PurchaseFieldCfg).id
          = PFieldId.contactPhone) by decide)]
      refine ⟨show 0 + 1 ≤ 4 by omega, ?_, ?_⟩
      · intro i hi
        have hi2 : i < 0 + 1 := hi
        interval_cases i
        show fieldOkAt s.purchase 0
        exact ⟨hempty, fun hc => absurd hc (by decide), fun hc => absurd hc (by decide)⟩
      · intro hpp
        exact absurd (show pastPurchase s.phase from hpp) hnotpast
  · -- contactName
    rw [nextPurchaseFn_eq s ⟨.contactName, "Contact Name"⟩ (by rw [hp]; rfl)]
    by_cases hempty : jtrim (getPF s.purchase PFieldId.contactName) = ""
    · rw [if_pos hempty]
      exact ⟨hps, hlt, hpast⟩
    · rw [if_neg hempty, if_neg (by simp), if_neg (by simp), hp,
        if_pos (show 1 + 1 < PURCHASE_FIELDS.length by decide),
        if_neg (show ¬ ((⟨.contactName, "Contact Name"⟩ : PurchaseFieldCfg).id
          = PFieldId.contactPhone) by decide)]
      refine ⟨show 1 + 1 ≤ 4 by omega, ?_, ?_⟩
      · intro i hi
        have hi2 : i < 1 + 1 := hi
        interval_cases i
        · exact hlt 0 (by omega)
        · show fieldOkAt s.purchase 1
          exact ⟨hempty, fun hc => absurd hc (by decide), fun hc => absurd hc (by decide)⟩
      · intro hpp
        exact absurd (show pastPurchase s.phase from hpp) hnotpast
  · -- companyAddress
    rw [nextPurchaseFn_eq s ⟨.companyAddress, "Company Address"⟩ (by rw [hp]; rfl)]
    by_cases hempty : jtrim (getPF s.purchase PFieldId.companyAddress) = ""
    · rw [if_pos hempty]
      exact ⟨hps, hlt, hpast⟩
    · rw [if_neg hempty, if_neg (by simp), if_neg (by simp), hp,
        if_pos (show 2 + 1 < PURCHASE_FIELDS.length by decide),
        if_neg (show ¬ ((⟨.companyAddress, "Company Address"⟩ : PurchaseFieldCfg).id
          = PFieldId.contactPhone) by decide)]
      refine ⟨show 2 + 1 ≤ 4 by omega, ?_, ?_⟩
      · intro i hi
        have hi2 : i < 2 + 1 := hi
        interval_cases i
        · exact hlt 0 (by omega)
        · exact hlt 1 (by omega)
        · show fieldOkAt s.purchase 2
          exact ⟨hempty, fun hc => absurd hc (by decide), fun hc => absurd hc (by decide)⟩
      · intro hpp
        exact absurd (show pastPurchase s.phase from hpp) hnotpast
  · -- contactPhone
    rw [nextPurchaseFn_eq s ⟨.contactPhone, "Contact Cell Phone Number"⟩ (by rw [hp]; rfl)]
    by_cases hempty : jtrim (getPF s.purchase PFieldId.contactPhone) = ""
    · rw [if_pos hempty]
      exact ⟨hps, hlt, hpast⟩
    · by_cases hv : isValidPhone (jtrim (getPF s.purchase PFieldId.contactPhone)) = false
      · rw [if_neg hempty, if_neg (by simp), if_pos ⟨rfl, hv⟩]
        exact ⟨hps, hlt, hpast⟩
      · have hvt : isValidPhone (jtrim (getPF s.purchase PFieldId.contactPhone)) = true := by
          revert hv
          cases isValidPhone (jtrim (getPF s.purchase PFieldId.contactPhone)) <;> simp
        rw [if_neg hempty, if_neg (by simp), if_neg (by simp [hv]), hp,
          if_pos (show 3 + 1 < PURCHASE_FIELDS.length by decide),
          if_pos (show (⟨.contactPhone, "Contact Cell Phone Number"⟩ : PurchaseFieldCfg).id
            = PFieldId.contactPhone from rfl)]
        obtain ⟨htrim, hne, hvalid, hidem⟩ := valid_phone_normalized _ hvt
        refine ⟨show 3 + 1 ≤ 4 by omega, ?_, ?_⟩
        · intro i hi
          have hi2 : i < 3 + 1 := hi
          interval_cases i
          · exact hlt 0 (by omega)
          · exact hlt 1 (by omega)
          · exact hlt 2 (by omega)
          · show fieldOkAt
              (setPF s.purchase .contactPhone
                (normalizePhone (jtrim (getPF s.purchase PFieldId.contactPhone)))) 3
            refine ⟨?_, fun _ => ⟨hvalid, hidem⟩, fun hc => absurd hc (by decide)⟩
            show jtrim (normalizePhone (jtrim (getPF s.purchase PFieldId.contactPhone))) ≠ ""
            rw [htrim]
            exact hne
        · intro hpp
          exact absurd (show pastPurchase s.phase from hpp) hnotpast
  · -- contactEmail
    rw [nextPurchaseFn_eq s ⟨.contactEmail, "Contact Email Address"⟩ (by rw [hp]; rfl)]
    by_cases hempty : jtrim (getPF s.purchase PFieldId.contactEmail) = ""
    · rw [if_pos hempty]
      exact ⟨hps, hlt, hpast⟩
    · by_cases he : isValidEmail (jtrim (getPF s.purchase PFieldId.contactEmail)) = false
      · rw [if_neg hempty, if_pos ⟨rfl, he⟩]
        exact ⟨hps, hlt, hpast⟩
      · have het : isValidEmail (jtrim (getPF s.purchase PFieldId.contactEmail)) = true := by
          revert he
          cases isValidEmail (jtrim (getPF s.purchase PFieldId.contactEmail)) <;> simp
        rw [if_neg hempty, if_neg (by simp [he]), if_neg (by simp), hp,
          if_neg (show ¬ (4 + 1 < PURCHASE_FIELDS.length) by decide),
          if_neg (show ¬ ((⟨.contactEmail, "Contact Email Address"⟩ : PurchaseFieldCfg).id
            = PFieldId.contactPhone) by decide)]
        refine ⟨hps, hlt, fun _ => ?_⟩
        intro i hi
        have hi2 : i < 5 := hi
        interval_cases i
        · exact hlt 0 (by omega)
        · exact hlt 1 (by omega)
        · exact hlt 2 (by omega)
        · exact hlt 3 (by omega)
        · show fieldOkAt s.purchase 4
          refine ⟨hempty, fun hc => absurd hc (by decide), fun _ => ?_⟩
          show isValidEmail (getPF s.purchase PFieldId.contactEmail) = true
          rw [← isValidEmail_jtrim]
          exact het

/-- Unfolding of the purchase-field typing handler once the current field
is known. -/
theorem typePurchase_eq (s : AppState) (f : PurchaseFieldCfg) (v : String)
    (hf : PURCHASE_FIELDS[s.pStep]? = some f) :
    (match PURCHASE_FIELDS[s.pStep]? with
     | some g => { s with purchase := setPF s.purchase g.id v }
     | none => s) = { s with purchase := setPF s.purchase f.id v } := by
  rw [hf]

theorem recordAnswer_preserves (s : AppState) (qid raw : String) :
    (recordAnswer s qid raw).purchase = s.purchase ∧
    (recordAnswer s qid raw).pStep = s.pStep ∧
    ((recordAnswer s qid raw).phase = s.phase ∨
      (recordAnswer s qid raw).phase = .summary) := by
  unfold recordAnswer
  dsimp only
  split
  · exact ⟨rfl, rfl, Or.inl rfl⟩
  · exact ⟨rfl, rfl, Or.inr rfl⟩

theorem submitAnswerFn_preserves (today : Ymd) (s : AppState) :
    (submitAnswerFn today s).purchase = s.purchase ∧
    (submitAnswerFn today s).pStep = s.pStep ∧
    ((submitAnswerFn today s).phase = s.phase ∨
      (submitAnswerFn today s).phase = .summary) := by
  unfold submitAnswerFn
  cases hq : QUESTION_CONFIG[s.step]? with
  | none => exact ⟨rfl, rfl, Or.inl rfl⟩
  | some q =>
    dsimp only
    by_cases hraw : jtrim s.input = ""
    · rw [if_pos hraw]
      exact ⟨rfl, rfl, Or.inl rfl⟩
    · rw [if_neg hraw]
      by_cases hq5 : (q.id == "q5") = true
      · rw [if_pos hq5]
        by_cases herr : validateQ5 today (parseDate (jtrim s.input)) ≠ ""
        · rw [if_pos herr]
          exact ⟨rfl, rfl, Or.inl rfl⟩
        · rw [if_neg herr]
          exact recordAnswer_preserves { s with qError := "" } q.id (jtrim s.input)
      · rw [if_neg hq5]
        exact recordAnswer_preserves s q.id (jtrim s.input)

/-- Every event preserves the invariant. -/
theorem inv_step (today : Ymd) (s : AppState) (e : Event) (h : Inv s) :
    Inv (stepFn today s e) := by
  obtain ⟨hps, hlt, hpast⟩ := h
  cases e with
  | uploadCsv rows =>
    simp only [stepFn]
    refine ⟨show (0 : Nat) ≤ 4 by omega, ?_, ?_⟩
    · intro i hi
      exact absurd (show i < 0 from hi) (by omega)
    · intro hpp
      exact absurd (show pastPurchase Phase.qa from hpp) (by decide)
  | typeQA v =>
    simp only [stepFn]
    split <;> exact ⟨hps, hlt, hpast⟩
  | submitQA =>
    simp only [stepFn]
    split
    · rename_i hg
      obtain ⟨hpur, hpst, hph⟩ := submitAnswerFn_preserves today s
      refine ⟨?_, ?_, ?_⟩
      · rw [hpst]
        exact hps
      · intro i hi
        rw [hpst] at hi
        rw [hpur]
        exact hlt i hi
      · intro hpp
        rcases hph with he | he <;> rw [he] at hpp
        · rw [hg.2] at hpp
          exact absurd hpp (by decide)
        · exact absurd hpp (by decide)
    · exact ⟨hps, hlt, hpast⟩
  | backQA =>
    simp only [stepFn]
    split
    · unfold goBackQAFn
      split <;> exact ⟨hps, hlt, hpast⟩
    · exact ⟨hps, hlt, hpast⟩
  | resetQA =>
    simp only [stepFn]
    split <;> exact ⟨hps, hlt, hpast⟩
  | summaryYes =>
    simp only [stepFn]
    split
    · exact ⟨hps, hlt,
        fun hpp => absurd (show pastPurchase Phase.purchase from hpp) (by decide)⟩
    · exact ⟨hps, hlt, hpast⟩
  | summaryNo =>
    simp only [stepFn]
    split
    · exact ⟨hps, hlt,
        fun hpp => absurd (show pastPurchase Phase.qa from hpp) (by decide)⟩
    · exact ⟨hps, hlt, hpast⟩
  | summaryBack =>
    simp only [stepFn]
    split
    · exact ⟨hps, hlt,
        fun hpp => absurd (show pastPurchase Phase.qa from hpp) (by decide)⟩
    · exact ⟨hps, hlt, hpast⟩
  | editAnswer i =>
    simp only [stepFn]
    split
    · exact ⟨hps, hlt,
        fun hpp => absurd (show pastPurchase Phase.qa from hpp) (by decide)⟩
    · exact ⟨hps, hlt, hpast⟩
  | typePurchase v =>
    simp only [stepFn]
    split
    · rename_i hg
      have hnp : ¬ pastPurchase s.phase := by
        rw [hg.2]
        decide
      have h5 : s.pStep = 0 ∨ s.pStep = 1 ∨ s.pStep = 2 ∨ s.pStep = 3 ∨ s.pStep = 4 := by
        omega
      rcases h5 with hp | hp | hp | hp | hp
      · rw [typePurchase_eq s ⟨.companyName, "Company Name"⟩ v (by rw [hp]; rfl)]
        refine ⟨hps, ?_, fun hpp => absurd (show pastPurchase s.phase from hpp) hnp⟩
        intro i hi
        have hi2 : i < s.pStep := hi
        rw [hp] at hi2
        omega
      · rw [typePurchase_eq s ⟨.contactName, "Contact Name"⟩ v (by rw [hp]; rfl)]
        refine ⟨hps, ?_, fun hpp => absurd (show pastPurchase s.phase from hpp) hnp⟩
        intro i hi
        have hi2 : i < s.pStep := hi
        rw [hp] at hi2
        interval_cases i
        exact hlt 0 (by omega)
      · rw [typePurchase_eq s ⟨.companyAddress, "Company Address"⟩ v (by rw [hp]; rfl)]
        refine ⟨hps, ?_, fun hpp => absurd (show pastPurchase s.phase from hpp) hnp⟩
        intro i hi
        have hi2 : i < s.pStep := hi
        rw [hp] at hi2
        interval_cases i
        · exact hlt 0 (by omega)
        · exact hlt 1 (by omega)
      · rw [typePurchase_eq s ⟨.contactPhone, "Contact Cell Phone Number"⟩ v (by rw [hp]; rfl)]
        refine ⟨hps, ?_, fun hpp => absurd (show pastPurchase s.phase from hpp) hnp⟩
        intro i hi
        have hi2 : i < s.pStep := hi
        rw [hp] at hi2
        interval_cases i
        · exact hlt 0 (by omega)
        · exact hlt 1 (by omega)
        · exact hlt 2 (by omega)
      · rw [typePurchase_eq s ⟨.contactEmail, "Contact Email Address"⟩ v (by rw [hp]; rfl)]
        refine ⟨hps, ?_, fun hpp => absurd (show pastPurchase s.phase from hpp) hnp⟩
        intro i hi
        have hi2 : i < s.pStep := hi
        rw [hp] at hi2
        interval_cases i
        · exact hlt 0 (by omega)
        · exact hlt 1 (by omega)
        · exact hlt 2 (by omega)
        · exact hlt 3 (by omega)
    · exact ⟨hps, hlt, hpast⟩
  | nextPurchase =>
    simp only [stepFn]
    split
    · rename_i hg
      exact nextPurchase_inv s ⟨hps, hlt, hpast⟩ hg.2
    · exact ⟨hps, hlt, hpast⟩
  | backPurchase =>
    simp only [stepFn]
    split
    · rename_i hg
      unfold backPurchaseFn
      split
      · exact ⟨hps, hlt,
          fun hpp => absurd (show pastPurchase Phase.summary from hpp) (by decide)⟩
      · refine ⟨show s.pStep - 1 ≤ 4 by omega, ?_,
          fun hpp => absurd (show pastPurchase s.phase from hpp) (by rw [hg.2]; decide)⟩
        intro i hi
        have hi2 : i < s.pStep - 1 := hi
        exact hlt i (by omega)
    · exact ⟨hps, hlt, hpast⟩
  | consentAgree =>
    simp only [stepFn]
    split
    · rename_i hg
      exact ⟨hps, hlt, fun _ => hpast (by rw [hg.2]; exact Or.inl rfl)⟩
    · exact ⟨hps, hlt, hpast⟩
  | consentDisagree =>
    simp only [stepFn]
    split
    · rename_i hg
      exact ⟨hps, hlt, fun _ => hpast (by rw [hg.2]; exact Or.inl rfl)⟩
    · exact ⟨hps, hlt, hpast⟩
  | consentBack =>
    simp only [stepFn]
    split
    · exact ⟨hps, hlt,
        fun hpp => absurd (show pastPurchase Phase.purchase from hpp) (by decide)⟩
    · exact ⟨hps, hlt, hpast⟩
  | chooseDelivery c =>
    simp only [stepFn]
    split <;> exact ⟨hps, hlt, hpast⟩
  | typeDelivery v =>
    simp only [stepFn]
    split <;> exact ⟨hps, hlt, hpast⟩
  | deliveryBackToChoice =>
    simp only [stepFn]
    split <;> exact ⟨hps, hlt, hpast⟩
  | deliveryBackToConsent =>
    simp only [stepFn]
    split
    · rename_i hg
      exact ⟨hps, hlt, fun _ => hpast (by rw [hg.2.1]; exact Or.inr (Or.inl rfl))⟩
    · exact ⟨hps, hlt, hpast⟩
  | submitDelivery =>
    simp only [stepFn]
    split
    · rename_i hg
      unfold submitDeliveryFn
      cases hdc : s.deliveryChoice with
      | none => exact ⟨hps, hlt, hpast⟩
      | some c =>
        cases c with
        | viaText =>
          dsimp only
          split
          · split
            · exact ⟨hps, hlt, hpast⟩
            · exact ⟨hps, hlt, fun _ => hpast (by rw [hg.2.1]; exact Or.inr (Or.inl rfl))⟩
          · split
            · exact ⟨hps, hlt, hpast⟩
            · exact ⟨hps, hlt, fun _ => hpast (by rw [hg.2.1]; exact Or.inr (Or.inl rfl))⟩
        | viaEmail =>
          dsimp only
          split
          · split
            · exact ⟨hps, hlt, hpast⟩
            · exact ⟨hps, hlt, fun _ => hpast (by rw [hg.2.1]; exact Or.inr (Or.inl rfl))⟩
          · split
            · exact ⟨hps, hlt, hpast⟩
            · exact ⟨hps, hlt, fun _ => hpast (by rw [hg.2.1]; exact Or.inr (Or.inl rfl))⟩
    · exact ⟨hps, hlt, hpast⟩
  | restartDone =>
    simp only [stepFn]
    split
    · refine ⟨show (0 : Nat) ≤ 4 by omega, ?_, ?_⟩
      · intro i hi
        exact absurd (show i < 0 from hi) (by omega)
      · intro hpp
        exact absurd (show pastPurchase Phase.qa from hpp) (by decide)
    · exact ⟨hps, hlt, hpast⟩

/-- Every reachable state satisfies the invariant. -/
theorem inv_reachable (today : Ymd) (s : AppState) (h : Reachable today s) : Inv s := by
  induction h with
  | init => exact inv_init
  | step e hr ih => exact inv_step today _ e ih

/-- Submitting with an input that trims to empty changes nothing. -/
theorem submit_empty_noop (today : Ymd) (s : AppState) (h : jtrim s.input = "") :
    stepFn today s .submitQA = s := by
  show (if s.csv.isSome = true ∧ s.phase = .qa then submitAnswerFn today s else s) = s
  split
  · unfold submitAnswerFn
    cases hq : QUESTION_CONFIG[s.step]? with
    | none => rfl
    | some q =>
      dsimp only
      rw [if_pos h]
  · rfl

/-- C8.  In every reachable state past the purchase phase (consent,
delivery, or done) all five purchase fields are non-empty after trimming,
the stored email passes `isValidEmail`, and the stored phone passes
`isValidPhone` and is stored in normalized form; moreover, submitting a QA
answer whose trimmed input is empty records nothing and advances nothing
(the step is a no-op). -/
theorem wizard_invariant (today : Ymd) (s : AppState) (h : Reachable today s) :
    ((s.phase = .consent ∨ s.phase = .delivery ∨ s.phase = .done) →
      (jtrim s.purchase.companyName ≠ "" ∧ jtrim s.purchase.contactName ≠ "" ∧
       jtrim s.purchase.companyAddress ≠ "" ∧ jtrim s.purchase.contactPhone ≠ "" ∧
       jtrim s.purchase.contactEmail ≠ "" ∧
       isValidEmail s.purchase.contactEmail = true ∧
       isValidPhone s.purchase.contactPhone = true ∧
       normalizePhone s.purchase.contactPhone = s.purchase.contactPhone)) ∧
    (jtrim s.input = "" → stepFn today s .submitQA = s) := by
  have hinv := inv_reachable today s h
  constructor
  · intro hp
    have hall := hinv.2.2 hp
    have h0 := hall 0 (by omega)
    have h1 := hall 1 (by omega)
    have h2 := hall 2 (by omega)
    have h3 := hall 3 (by omega)
    have h4 := hall 4 (by omega)
    exact ⟨h0.1, h1.1, h2.1, h3.1, h4.1, h4.2.2 rfl, (h3.2.1 rfl).1, (h3.2.1 rfl).2⟩
  · intro hempty
    exact submit_empty_noop today s hempty

/-- Closed instance of `wizard_invariant` at the initial state. -/
theorem wizard_invariant_witness :
    ((initState.phase = .consent ∨ initState.phase = .delivery ∨
        initState.phase = .done) →
      (jtrim initState.purchase.companyName ≠ "" ∧
       jtrim initState.purchase.contactName ≠ "" ∧
       jtrim initState.purchase.companyAddress ≠ "" ∧
       jtrim initState.purchase.contactPhone ≠ "" ∧
       jtrim initState.purchase.contactEmail ≠ "" ∧
       isValidEmail initState.purchase.contactEmail = true ∧
       isValidPhone initState.purchase.contactPhone = true ∧
       normalizePhone initState.purchase.contactPhone
         = initState.purchase.contactPhone)) ∧
    (jtrim initState.input = "" →
      stepFn ⟨2026, 10, 12⟩ initState .submitQA = initState) :=
  wizard_invariant ⟨2026, 10, 12⟩ initState Reachable.init

end CsvChatbot
